import Mathlib

/-!
Shallow embedding of `src/posix/platform/netif.cpp`, the POSIX platform
network-interface bridge between the OpenThread IPv6 stack and a host TUN
device.  IPv6 addresses are lists of byte values (`Nat < 256`, 16 octets);
machine arithmetic that can overflow is made explicit with `% 256` or
bitwise masking.  Each embedded definition mirrors one source function and
keeps its name; platform-conditional code (`__linux__` vs the BSD family)
is embedded as two definitions suffixed `Linux` / `Bsd`.
-/

/-- C constant `IFF_UP` (bit 0 of the interface flags word). -/
def IFF_UP : Nat := 1

/-- The 16-octet all-ones address used in `UpdateUnicast`
(`memset(&ifr6.ifra_prefixmask.sin6_addr, 0xFF, 16)`). -/
def allOnes16 : List Nat := List.replicate 16 255

/-- The clamp at the top of `apply_mask`: `if (mask > 128) mask = 128;`. -/
def clampMask (mask : Nat) : Nat := if 128 < mask then 128 else mask

/-- One byte of the canonical n-leading-ones mask: `onesByte k` has
`min k 8` leading one bits (`k = 8` gives `0xFF`, `k = 0` gives `0`). -/
def onesByte (k : Nat) : Nat := 256 - 2 ^ (8 - k)

/-- The canonical 128-bit netmask with `n` leading one bits followed by
zero bits, as 16 octets. -/
def mkMask (n : Nat) : List Nat :=
  (List.range 16).map (fun i => onesByte (min 8 (n - 8 * i)))

/-- Embedding of `apply_mask` (netif.cpp, BSD branch): clamp the prefix
length to 128, zero every whole byte from index `(mask+7)/8` on
(the `memset`), and if `mask % 8 ≠ 0` keep only the high `mask % 8` bits
of byte `mask / 8` (`addr[mask/8] &= ~(0xFF >> (mask%8))`). -/
def apply_mask (address : List Nat) (mask0 : Nat) : List Nat :=
  let mask := clampMask mask0
  let firstZeroed := (mask + 7) / 8
  let zeroed := address.mapIdx (fun i b => if firstZeroed ≤ i then 0 else b)
  if mask % 8 ≠ 0 then
    zeroed.mapIdx (fun i b =>
      if i = mask / 8 then b &&& (Nat.xor 255 (255 >>> (mask % 8))) else b)
  else
    zeroed

/-- The inner bit loop of `calculate_prefix_len`: count set bits of a byte
from bit 7 downward, stopping at the first clear bit. -/
def byteLeadingOnes (b : Nat) : Nat → Nat
  | 0 => if b.testBit 0 then 1 else 0
  | j + 1 => if b.testBit (j + 1) then 1 + byteLeadingOnes b j else 0

/-- Embedding of `calculate_prefix_len` (netif.cpp, BSD branch): walk the
netmask bytes; a `0xFF` byte contributes 8 and the scan continues; the
first non-`0xFF` byte contributes its leading one bits and the scan
stops. -/
def calculate_prefix_len : List Nat → Nat
  | [] => 0
  | b :: rest =>
    if b = 255 then 8 + calculate_prefix_len rest else byteLeadingOnes b 7

/-- C7: for every N in 0..128, `calculate_prefix_len` applied to the
128-bit netmask of N leading ones followed by zeros returns N. -/
theorem calculate_prefix_len_leading_ones :
    ∀ n, n ≤ 128 → calculate_prefix_len (mkMask n) = n := by decide

/-- Witness for C7 at N = 64. -/
theorem calculate_prefix_len_leading_ones_w :
    64 ≤ 128 ∧ calculate_prefix_len (mkMask 64) = 64 :=
  ⟨by decide, calculate_prefix_len_leading_ones 64 (by decide)⟩

set_option maxRecDepth 4000 in
/-- For masks within range the synthesized BSD prefix mask (`memset` to
all-ones then `apply_mask`) is the canonical leading-ones mask. -/
theorem apply_mask_allOnes_shape :
    ∀ m, m ≤ 128 → apply_mask allOnes16 m = mkMask m := by decide

/-- C10: `apply_mask` is total over all mask arguments: above 128 it
coincides with mask 128 on every address; on the all-ones input it always
yields the canonical `min m 128`-leading-ones mask; and the byte indices
the source touches (`(mask+7)/8` for the memset, `mask/8` for the partial
byte) stay within the 16-octet address after clamping. -/
theorem apply_mask_total (a : List Nat) (m : Nat) :
    (128 < m → apply_mask a m = apply_mask a 128) ∧
    apply_mask allOnes16 m = mkMask (min m 128) ∧
    (clampMask m + 7) / 8 ≤ 16 ∧
    (clampMask m % 8 ≠ 0 → clampMask m / 8 < 16) := by
  have hclamp : 128 < m → apply_mask a m = apply_mask a 128 := by
    intro h
    have h1 : clampMask m = clampMask 128 := by
      unfold clampMask
      rw [if_pos h, if_neg (lt_irrefl 128)]
    unfold apply_mask
    rw [h1]
  refine ⟨hclamp, ?_, ?_, ?_⟩
  · rcases le_or_lt m 128 with h | h
    · rw [min_eq_left h]
      exact apply_mask_allOnes_shape m h
    · have h1 : clampMask m = clampMask 128 := by
        unfold clampMask
        rw [if_pos h, if_neg (lt_irrefl 128)]
      have h2 : apply_mask allOnes16 m = apply_mask allOnes16 128 := by
        unfold apply_mask
        rw [h1]
      rw [min_eq_right h.le, h2]
      exact apply_mask_allOnes_shape 128 (le_refl 128)
  · unfold clampMask
    split <;> omega
  · unfold clampMask
    split <;> omega

/-- Witness for C10 at masks 200 (clamped) and 20 (partial byte). -/
theorem apply_mask_total_w :
    apply_mask allOnes16 200 = apply_mask allOnes16 128 ∧
    clampMask 20 / 8 < 16 :=
  ⟨(apply_mask_total allOnes16 200).1 (by decide),
   (apply_mask_total allOnes16 20).2.2.2 (by decide)⟩

/-- Modelled from the spec: the network-interface-state bit
`OT_CHANGED_THREAD_NETIF_STATE` of the changed-flags mask.  Its declaration
lives in `openthread/instance.h`, which is not part of `src/`; the spec
only requires it to be one fixed nonzero bit, and every theorem below
depends only on it being nonzero. -/
def OT_CHANGED_THREAD_NETIF_STATE : Nat := 2 ^ 24

/-- Embedding of the guard of `processStateChange` (netif.cpp line 522):
the C condition `if (OT_CHANGED_THREAD_NETIF_STATE | aFlags)` is a bitwise
OR tested for C truthiness (nonzero); `UpdateLink` runs exactly when this
returns `true`. -/
def processStateChange_updatesLink (aFlags : Nat) : Bool :=
  (OT_CHANGED_THREAD_NETIF_STATE ||| aFlags) != 0

/-- C1: the guard of `processStateChange` is a bitwise OR with a nonzero
constant, hence always true: link reconciliation (`UpdateLink`) runs on
every state-change callback, even when the flag mask does not contain the
network-interface-state bit. -/
theorem processStateChange_always_updates :
    ∀ aFlags, processStateChange_updatesLink aFlags = true := by
  intro aFlags
  unfold processStateChange_updatesLink OT_CHANGED_THREAD_NETIF_STATE
  simp only [bne_iff_ne, ne_eq]
  intro h
  have hbit : ((2 ^ 24 : Nat) ||| aFlags).testBit 24 = true := by
    rw [Nat.testBit_lor]
    have h24 : Nat.testBit (2 ^ 24) 24 = true := by decide
    rw [h24, Bool.true_or]
  rw [h] at hbit
  simp [Nat.zero_testBit] at hbit

/-- Helper: setting `IFF_UP` (bit 0) makes bit 0 read back as set. -/
theorem lor_one_land_one (k : Nat) : (k ||| 1) &&& 1 = 1 := by
  apply Nat.eq_of_testBit_eq
  intro i
  rw [Nat.testBit_land, Nat.testBit_lor]
  cases i with
  | zero => simp
  | succ j => simp [Nat.testBit_succ]

/-- Helper: clearing `IFF_UP` via `& ~IFF_UP` (16-bit mask `0xFFFE`) makes
bit 0 read back as clear. -/
theorem land_fffe_land_one (k : Nat) : (k &&& 65534) &&& 1 = 0 := by
  rw [Nat.land_assoc]
  have h : (65534 &&& 1 : Nat) = 0 := by decide
  rw [h]
  simp

/-- `lor_one_land_one` restated through `n &&& 1 = n % 2`. -/
theorem lor_one_mod_two (k : Nat) : (k ||| 1) % 2 = 1 := by
  rw [← Nat.and_one_is_mod]
  exact lor_one_land_one k

/-- `land_fffe_land_one` restated through `n &&& 1 = n % 2`. -/
theorem land_fffe_mod_two (k : Nat) : (k &&& 65534) % 2 = 0 := by
  rw [← Nat.and_one_is_mod]
  exact land_fffe_land_one k

/-- Embedding of `UpdateLink` (netif.cpp): read the kernel interface flags
(`SIOCGIFFLAGS`), compute `if_state = (flags & IFF_UP) == IFF_UP` and
`ot_state = otIp6IsEnabled`, and only when they differ issue
`SIOCSIFFLAGS` with bit `IFF_UP` set (`flags | IFF_UP`) or cleared
(`flags & ~IFF_UP`; `ifr_flags` is a 16-bit short, so the complement is
`&&& 0xFFFE`).  Returns the kernel flags after the call and whether the
`SIOCSIFFLAGS` ioctl was issued. -/
def UpdateLink (kernelFlags : Nat) (ot_state : Bool) : Nat × Bool :=
  let if_state : Bool := (kernelFlags &&& IFF_UP) == IFF_UP
  if if_state ≠ ot_state then
    (if ot_state then kernelFlags ||| IFF_UP else kernelFlags &&& 65534, true)
  else
    (kernelFlags, false)

/-- C8: link reconciliation is idempotent: `UpdateLink` issues the
`SIOCSIFFLAGS` ioctl exactly when the kernel `IFF_UP` state differs from
the stack state, and a second consecutive call with the stack in the same
state issues no ioctl, so two consecutive calls produce at most one
`SIOCSIFFLAGS`. -/
theorem UpdateLink_idempotent (k : Nat) (s : Bool) :
    (UpdateLink (UpdateLink k s).1 s).2 = false ∧
    ((UpdateLink k s).2 = true ↔ (((k &&& IFF_UP) == IFF_UP) : Bool) ≠ s) := by
  constructor
  · rcases s with _ | _ <;> rcases Nat.mod_two_eq_zero_or_one k with hm | hm <;>
      simp [UpdateLink, IFF_UP, Nat.and_one_is_mod, hm,
            lor_one_mod_two, land_fffe_mod_two]
  · rcases s with _ | _ <;> rcases Nat.mod_two_eq_zero_or_one k with hm | hm <;>
      simp [UpdateLink, IFF_UP, Nat.and_one_is_mod, hm]

/-- The four platform file descriptors (`sTunFd`, `sIpFd`, `sNetlinkFd`,
`sMLDMonitorFd`) and `sTunIndex`.  A descriptor value of `-1` means
"not open", as in the source's initializers. -/
structure NetifState where
  tunFd : Int
  ipFd : Int
  netlinkFd : Int
  mldFd : Int
  tunIndex : Nat
deriving DecidableEq

/-- One `if (fd != -1) { close(fd); fd = -1; }` block of
`platformNetifDeinit`: returns the new field value and the list of
descriptors passed to `close` (empty or a singleton). -/
def closeFd (fd : Int) : Int × List Int :=
  if fd ≠ -1 then (-1, [fd]) else (fd, [])

/-- Embedding of `platformNetifDeinit` (netif.cpp): close each of the tun,
ip, netlink and MLD-monitor descriptors when not `-1`, set each field to
`-1`, and reset `sTunIndex` to 0.  Returns the new state and the sequence
of `close` calls issued. -/
def platformNetifDeinit (s : NetifState) : NetifState × List Int :=
  let t := closeFd s.tunFd
  let i := closeFd s.ipFd
  let n := closeFd s.netlinkFd
  let m := closeFd s.mldFd
  (⟨t.1, i.1, n.1, m.1, 0⟩, t.2 ++ i.2 ++ n.2 ++ m.2)

/-- After a close block the field is always `-1`. -/
theorem closeFd_fst (fd : Int) : (closeFd fd).1 = -1 := by
  unfold closeFd
  split
  next => rfl
  next h =>
    simp at h
    exact h

/-- A close block only closes the descriptor it guards, and only when it
was open. -/
theorem closeFd_mem {x fd : Int} (h : x ∈ (closeFd fd).2) :
    x = fd ∧ x ≠ -1 := by
  unfold closeFd at h
  split at h
  next hne =>
    simp at h
    subst h
    exact ⟨rfl, hne⟩
  next => simp at h

/-- A close block closes its descriptor at most once. -/
theorem closeFd_sub (fd : Int) : (closeFd fd).2.Sublist [fd] := by
  unfold closeFd
  split
  next => exact List.Sublist.refl _
  next => exact List.nil_sublist _

/-- C9: `platformNetifDeinit` resets every descriptor to `-1` and the
interface index to 0 from any (also partially-constructed) state, closes
only descriptors that were open and each at most once, and a second call
closes nothing and leaves the state unchanged. -/
theorem platformNetifDeinit_safe (s : NetifState) :
    (platformNetifDeinit s).1 = ⟨-1, -1, -1, -1, 0⟩ ∧
    platformNetifDeinit (platformNetifDeinit s).1 = (⟨-1, -1, -1, -1, 0⟩, []) ∧
    (∀ fd, fd ∈ (platformNetifDeinit s).2 →
      fd ≠ -1 ∧ fd ∈ [s.tunFd, s.ipFd, s.netlinkFd, s.mldFd]) ∧
    (platformNetifDeinit s).2.Sublist [s.tunFd, s.ipFd, s.netlinkFd, s.mldFd] := by
  have hreset : (platformNetifDeinit s).1 = ⟨-1, -1, -1, -1, 0⟩ := by
    unfold platformNetifDeinit
    simp [closeFd_fst]
  refine ⟨hreset, ?_, ?_, ?_⟩
  · rw [hreset]
    rfl
  · intro fd hmem
    unfold platformNetifDeinit at hmem
    simp only [List.append_assoc, List.mem_append] at hmem
    rcases hmem with h | h | h | h <;>
      rcases closeFd_mem h with ⟨rfl, hne⟩ <;>
        simp [hne]
  · unfold platformNetifDeinit
    have h4 : [s.tunFd, s.ipFd, s.netlinkFd, s.mldFd] =
        ([s.tunFd] ++ [s.ipFd]) ++ [s.netlinkFd] ++ [s.mldFd] := rfl
    rw [h4]
    exact (((closeFd_sub s.tunFd).append (closeFd_sub s.ipFd)).append
      (closeFd_sub s.netlinkFd)).append (closeFd_sub s.mldFd)

/-- Witness for C9 at a partially-constructed state (ip and MLD never
opened): the tun descriptor 3 is closed and was open. -/
theorem platformNetifDeinit_safe_w :
    (3 : Int) ≠ -1 ∧ (3 : Int) ∈ [(3 : Int), -1, 5, -1] :=
  (platformNetifDeinit_safe ⟨3, -1, 5, -1, 7⟩).2.2.1 3 (by decide)

/-- `kMaxIp6Size` (netif.cpp line 245). -/
def kMaxIp6Size : Nat := 1536

/-- Platform constant `PF_INET6` (= `AF_INET6`) on Darwin. -/
def PF_INET6_darwin : Nat := 30

/-- Platform constant `PF_INET6` (= `AF_INET6`) on FreeBSD. -/
def PF_INET6_freebsd : Nat := 28

/-- Platform constant `PF_INET6` (= `AF_INET6`) on NetBSD. -/
def PF_INET6_netbsd : Nat := 24

/-- Embedding of `processReceive` (netif.cpp), af-prefix (BSD-family)
branch, success path (valid tun fd, message read succeeds): given the
platform's `PF_INET6` value and the datagram payload delivered by the
stack, returns the bytes written to the tun descriptor, or `none` when
the payload exceeds `max_length = sizeof(packet) - 4` and the write is
skipped.  The four header octets are `packet[0] = 0`, `packet[1] = 0`,
`packet[2] = (PF_INET6 << 8) & 0xFF`, `packet[3] = PF_INET6 & 0xFF`. -/
def processReceive (pfInet6 : Nat) (payload : List Nat) : Option (List Nat) :=
  if payload.length ≤ kMaxIp6Size then
    some ([0, 0, (pfInet6 <<< 8) &&& 255, pfInet6 &&& 255] ++ payload)
  else
    none

/-- Counterexample for C4: on Darwin (`PF_INET6 = 30`) the four header
octets written before the payload are `00 00 00 1E`, not `00 00 00 0A`:
the low byte is the platform's protocol-family constant, and no af-prefix
platform has `AF_INET6 = 10`. -/
theorem processReceive_header_not_0A :
    processReceive PF_INET6_darwin [96] = some ([0, 0, 0, 30] ++ [96]) ∧
    processReceive PF_INET6_darwin [96] ≠ some ([0, 0, 0, 10] ++ [96]) := by
  decide

/-- C4 (amended): on an af-prefix platform the bytes written to the tun
descriptor are the four octets `00 00 00 PF` followed by the payload,
where `PF` is that platform's `PF_INET6` constant (30 on Darwin, 28 on
FreeBSD, 24 on NetBSD); `(PF_INET6 << 8) & 0xFF` is always 0. -/
theorem processReceive_af_header (payload : List Nat)
    (h : payload.length ≤ kMaxIp6Size) :
    processReceive PF_INET6_darwin payload = some ([0, 0, 0, 30] ++ payload) ∧
    processReceive PF_INET6_freebsd payload = some ([0, 0, 0, 28] ++ payload) ∧
    processReceive PF_INET6_netbsd payload = some ([0, 0, 0, 24] ++ payload) := by
  have h30 : (((30 : Nat) <<< 8) &&& 255 = 0) ∧ ((30 : Nat) &&& 255 = 30) := by
    decide
  have h28 : (((28 : Nat) <<< 8) &&& 255 = 0) ∧ ((28 : Nat) &&& 255 = 28) := by
    decide
  have h24 : (((24 : Nat) <<< 8) &&& 255 = 0) ∧ ((24 : Nat) &&& 255 = 24) := by
    decide
  unfold processReceive PF_INET6_darwin PF_INET6_freebsd PF_INET6_netbsd
  rw [if_pos h, if_pos h, if_pos h, h30.1, h30.2, h28.1, h28.2, h24.1, h24.2]
  exact ⟨rfl, rfl, rfl⟩

/-- Witness for C4's amended theorem at a one-byte payload. -/
theorem processReceive_af_header_w :
    processReceive PF_INET6_freebsd [96] = some ([0, 0, 0, 28] ++ [96]) :=
  (processReceive_af_header [96] (by decide)).2.1

/-- Embedding of `processTransmit` (netif.cpp), BSD-family (af-prefix)
branch, success path (message allocation and append succeed): given the
bytes read from the tun descriptor, returns the bytes handed to
`otIp6Send`, or `none` when the read returned no data and no send
happens.  The leading four octets are skipped exactly when the read
length is at least 4 and the first two octets are zero
(`rval >= 4 && packet[0] == 0 && packet[1] == 0`). -/
def processTransmitBsd (packet : List Nat) : Option (List Nat) :=
  if packet.length = 0 then none
  else if 4 ≤ packet.length ∧ packet.getD 0 255 = 0 ∧ packet.getD 1 255 = 0 then
    some (packet.drop 4)
  else some packet

/-- Embedding of `processTransmit` (netif.cpp), Linux (no-prefix) branch,
success path: the bytes read from the tun descriptor are handed to
`otIp6Send` unchanged. -/
def processTransmitLinux (packet : List Nat) : Option (List Nat) :=
  if packet.length = 0 then none else some packet

/-- C6: for every datagram read from the tun descriptor, exactly one stack
send is invoked with the datagram's IPv6 payload: on the af-prefix branch
a read of the 4-octet family header (`00 00 00 fam`) followed by payload
`P` results in exactly one send carrying exactly `P`; on the no-prefix
(Linux) branch every nonempty read results in exactly one send carrying
the read bytes unchanged. -/
theorem processTransmit_roundtrip (P : List Nat) (fam : Nat) :
    processTransmitBsd ([0, 0, 0, fam] ++ P) = some P ∧
    (P ≠ [] → processTransmitLinux P = some P) := by
  constructor
  · have hlen : ([0, 0, 0, fam] ++ P).length = 4 + P.length := by
      simp
      omega
    unfold processTransmitBsd
    rw [if_neg (by omega), if_pos ⟨by omega, rfl, rfl⟩]
    rfl
  · intro h
    unfold processTransmitLinux
    rw [if_neg (by simpa using h)]

/-- Witness for C6 at header `00 00 00 1E` and payload `[96, 0, 1]`. -/
theorem processTransmit_roundtrip_w :
    processTransmitBsd ([0, 0, 0, 30] ++ [96, 0, 1]) = some [96, 0, 1] ∧
    processTransmitLinux [96, 0, 1] = some [96, 0, 1] :=
  ⟨(processTransmit_roundtrip [96, 0, 1] 30).1,
   (processTransmit_roundtrip [96, 0, 1] 30).2 (by decide)⟩

/-- Outcome of one platform operation: success, warning logged and
execution continues, or process termination (`VerifyOrDie`). -/
inductive UpdateOutcome
  | ok
  | warnContinue
  | die
deriving DecidableEq

/-- Linux `errno` value `EEXIST`. -/
def EEXIST_linux : Nat := 17

/-- BSD-family `errno` value `EALREADY` (37 on Darwin/FreeBSD/NetBSD). -/
def EALREADY_bsd : Nat := 37

/-- Embedding of `UpdateUnicast` (netif.cpp), Linux branch, reduced to its
error policy.  `ioctlErrno` is `none` on ioctl success and `some errno`
on failure.  The add path is `VerifyOrDie(ioctl(..., SIOCSIFADDR, ...) == 0,
OT_EXIT_ERROR_ERRNO)`: any failure terminates the process.  The delete
path and an invalid ip descriptor log a warning and continue. -/
def UpdateUnicastLinux (ipFdValid : Bool) (aIsAdded : Bool)
    (ioctlErrno : Option Nat) : UpdateOutcome :=
  if ¬ ipFdValid then .warnContinue
  else if aIsAdded then
    match ioctlErrno with
    | none => .ok
    | some _ => .die
  else
    match ioctlErrno with
    | none => .ok
    | some _ => .warnContinue

/-- Embedding of `UpdateUnicast` (netif.cpp), BSD-family branch, reduced
to its error policy: `EALREADY` from the `SIOCAIFADDR_IN6`/`SIOCDIFADDR_IN6`
ioctl is remapped to success; any other failure sets `OT_ERROR_FAILED`,
which is logged as a warning at `exit` and execution continues. -/
def UpdateUnicastBsd (ipFdValid : Bool) (_aIsAdded : Bool)
    (ioctlErrno : Option Nat) : UpdateOutcome :=
  if ¬ ipFdValid then .warnContinue
  else
    match ioctlErrno with
    | none => .ok
    | some e => if e = EALREADY_bsd then .ok else .warnContinue

/-- Counterexample for C5: on Linux, an address add whose `SIOCSIFADDR`
ioctl fails — including with `EEXIST` ("already exists") — terminates the
process instead of mapping to success or continuing with a warning. -/
theorem UpdateUnicastLinux_add_dies :
    UpdateUnicastLinux true true (some EEXIST_linux) = UpdateOutcome.die := by
  decide

/-- C5 (amended): on the BSD-family branch, a unicast address add maps
`EALREADY` to success, logs any other ioctl failure as a warning and
continues, and never terminates; on the Linux branch any failed add
ioctl terminates the process. -/
theorem UpdateUnicast_add_error_policy (e : Nat) :
    UpdateUnicastBsd true true (some EALREADY_bsd) = UpdateOutcome.ok ∧
    (e ≠ EALREADY_bsd →
      UpdateUnicastBsd true true (some e) = UpdateOutcome.warnContinue) ∧
    UpdateUnicastBsd true true (some e) ≠ UpdateOutcome.die ∧
    UpdateUnicastLinux true true (some e) = UpdateOutcome.die := by
  refine ⟨by decide, ?_, ?_, rfl⟩
  · intro hne
    unfold UpdateUnicastBsd
    simp [hne]
  · unfold UpdateUnicastBsd
    by_cases hcase : e = EALREADY_bsd <;> simp [hcase]

/-- Witness for C5's amended theorem at errno 22 (`EINVAL`). -/
theorem UpdateUnicast_add_error_policy_w :
    UpdateUnicastBsd true true (some 22) = UpdateOutcome.warnContinue :=
  (UpdateUnicast_add_error_policy 22).2.1 (by decide)

/-- An action the kernel-event handlers take for one address record. -/
inductive AddrAction
  | stackAddUnicast (addr : List Nat) (plen : Nat)
  | stackRemoveUnicast (addr : List Nat)
  | stackSubscribeM (addr : List Nat)
  | stackUnsubscribeM (addr : List Nat)
  | kernelRemove (addr : List Nat)
  | ignore
deriving DecidableEq

/-- `ot::Ip6::Address::IsMulticast`: first octet is `0xFF`. -/
def isMulticast (a : List Nat) : Bool := a.getD 0 0 == 255

/-- `IN6_IS_ADDR_LINKLOCAL`: octet 0 is `0xFE` and the top two bits of
octet 1 are `10`. -/
def IN6_IS_ADDR_LINKLOCAL (a : List Nat) : Bool :=
  (a.getD 0 0 == 254) && ((a.getD 1 0 &&& 192) == 128)

/-- `IN6_IS_ADDR_MC_LINKLOCAL`: octet 0 is `0xFF` and the low nibble of
octet 1 is `2`. -/
def IN6_IS_ADDR_MC_LINKLOCAL (a : List Nat) : Bool :=
  (a.getD 0 0 == 255) && ((a.getD 1 0 &&& 15) == 2)

/-- The BSD handler's `addr6.sin6_addr.s6_addr[3] = 0` (clear the
embedded scope id octet). -/
def clearScopeByte (a : List Nat) : List Nat := a.set 3 0

/-- Embedding of the Linux `processNetifAddrEvent` (netif.cpp lines
629-776) for one `IFA_*` address attribute of an `RTM_NEWADDR` /
`RTM_DELADDR` record that passed the interface-index and `AF_INET6`
filters: multicast addresses are subscribed/unsubscribed, every other
address is added to/removed from the stack's unicast list.  No link-local
check exists on this branch. -/
def processNetifAddrEventLinux (isNewAddr : Bool) (addr : List Nat)
    (ifa_plen : Nat) : AddrAction :=
  if isNewAddr then
    if ¬ isMulticast addr then .stackAddUnicast addr ifa_plen
    else .stackSubscribeM addr
  else
    if ¬ isMulticast addr then .stackRemoveUnicast addr
    else .stackUnsubscribeM addr

/-- Embedding of the BSD `processNetifAddrEvent` (netif.cpp lines
817-1052) for one routing-socket message carrying an `AF_INET6` `RTAX_IFA`
address: link-local scope octets are cleared, and on `RTM_NEWADDR` a
unicast address already subscribed in the stack is ignored, an unknown
link-local is removed from the kernel (`SIOCDIFADDR_IN6`), and any other
unknown unicast is added to the stack with the prefix length derived from
`RTAX_NETMASK`. -/
def processNetifAddrEventBsd (isNewAddr : Bool) (subscribed : Bool)
    (addr0 : List Nat) (netmask : List Nat) : AddrAction :=
  let is_link_local := IN6_IS_ADDR_LINKLOCAL addr0
  let addr :=
    if IN6_IS_ADDR_LINKLOCAL addr0 || IN6_IS_ADDR_MC_LINKLOCAL addr0 then
      clearScopeByte addr0
    else addr0
  if isNewAddr then
    if ¬ isMulticast addr then
      if subscribed then .ignore
      else if is_link_local then .kernelRemove addr
      else .stackAddUnicast addr (calculate_prefix_len netmask)
    else .stackSubscribeM addr
  else
    if ¬ isMulticast addr then .stackRemoveUnicast addr
    else .stackUnsubscribeM addr

/-- The concrete link-local address fe80::abcd. -/
def fe80abcd : List Nat :=
  [254, 128, 0, 0, 0, 0, 0, 0, 0, 0, 0, 0, 0, 0, 171, 205]

/-- Clearing the scope octet keeps octet 0. -/
theorem clearScopeByte_getD_zero (a : List Nat) :
    (clearScopeByte a).getD 0 0 = a.getD 0 0 := by
  unfold clearScopeByte
  match a with
  | [] => rfl
  | x :: xs => rfl

/-- Counterexample for C3: on the Linux branch a kernel `AddrAdd` of the
link-local unicast fe80::abcd is imported into the stack
(`otIp6AddUnicastAddress`), not removed from the kernel. -/
theorem processNetifAddrEventLinux_linklocal_adds :
    processNetifAddrEventLinux true fe80abcd 64 =
      AddrAction.stackAddUnicast fe80abcd 64 ∧
    processNetifAddrEventLinux true fe80abcd 64 ≠
      AddrAction.kernelRemove fe80abcd := by
  decide

/-- C3 (amended): on the BSD branch, every kernel `AddrAdd` of a
link-local unicast the stack does not already know is answered by a
kernel address-remove of that address (scope octet cleared) and no stack
mutation; on the Linux branch the same event instead invokes the stack's
unicast add. -/
theorem processNetifAddrEventBsd_linklocal (addr netmask : List Nat)
    (plen : Nat) (h : IN6_IS_ADDR_LINKLOCAL addr = true) :
    processNetifAddrEventBsd true false addr netmask =
      AddrAction.kernelRemove (clearScopeByte addr) ∧
    processNetifAddrEventLinux true addr plen =
      AddrAction.stackAddUnicast addr plen := by
  have h0 : addr.getD 0 0 = 254 := by
    unfold IN6_IS_ADDR_LINKLOCAL at h
    simp only [Bool.and_eq_true, beq_iff_eq] at h
    exact h.1
  have hmc : isMulticast (clearScopeByte addr) = false := by
    unfold isMulticast
    rw [clearScopeByte_getD_zero, h0]
    rfl
  have hmc0 : isMulticast addr = false := by
    unfold isMulticast
    rw [h0]
    rfl
  constructor
  · unfold processNetifAddrEventBsd
    rw [h]
    simp [hmc]
  · unfold processNetifAddrEventLinux
    simp [hmc0]

/-- Witness for C3's amended theorem at fe80::abcd with a /64 netmask. -/
theorem processNetifAddrEventBsd_linklocal_w :
    processNetifAddrEventBsd true false fe80abcd (mkMask 64) =
      AddrAction.kernelRemove (clearScopeByte fe80abcd) :=
  (processNetifAddrEventBsd_linklocal fe80abcd (mkMask 64) 64 (by decide)).1

/-- A multicast action the MLD monitor performs on the stack. -/
inductive MldAction
  | subscribe (addr : List Nat)
  | unsubscribe (addr : List Nat)
deriving DecidableEq

/-- `kICMPv6MLDv2Type` (netif.cpp line 239). -/
def kICMPv6MLDv2Type : Nat := 143

/-- `kICMPv6MLDv2RecordChangeToExcludeType` (netif.cpp line 240). -/
def kICMPv6MLDv2RecordChangeToExcludeType : Nat := 3

/-- `kICMPv6MLDv2RecordChangeToIncludeType` (netif.cpp line 241). -/
def kICMPv6MLDv2RecordChangeToIncludeType : Nat := 4

/-- The record loop of `processMLDEvent` (netif.cpp lines 1230-1276),
with the remaining record count as the recursion fuel (`i` runs while
`i < ntohs(hdr->mNumRecords) && offset < bufferLen`).  A record is
processed only when `bufferLen >= sizeof(MLDv2Record) + offset`
(`sizeof(MLDv2Record) = 20`); `mRecordType` is the byte at `offset`,
`mNumSources` the big-endian 16-bit field at `offset + 2`, and the
multicast address the 16 octets at `offset + 4`.  The offset then
advances by `sizeof(MLDv2Record) + 16 * mNumSources`. -/
def mldRecordLoop (buffer : List Nat) : Nat → Nat → List MldAction
  | _, 0 => []
  | offset, n + 1 =>
    if offset < buffer.length then
      if 20 + offset ≤ buffer.length then
        let rt := buffer.getD offset 0
        let numSources :=
          256 * buffer.getD (offset + 2) 0 + buffer.getD (offset + 3) 0
        let addr := (buffer.drop (offset + 4)).take 16
        let acts :=
          if rt = kICMPv6MLDv2RecordChangeToIncludeType then
            [MldAction.subscribe addr]
          else if rt = kICMPv6MLDv2RecordChangeToExcludeType then
            [MldAction.unsubscribe addr]
          else []
        acts ++ mldRecordLoop buffer (offset + 20 + 16 * numSources) n
      else mldRecordLoop buffer offset n
    else []

/-- Embedding of `processMLDEvent` (netif.cpp): drop the datagram unless
it is nonempty, its first byte is the MLDv2 report type 143 with at least
`sizeof(MLDv2Header) = 8` bytes, and it was sent from one of the tunnel's
own addresses (`fromSelf`); then run the record loop starting at offset 8
with `ntohs(mNumRecords)` (big-endian bytes 6 and 7) records. -/
def processMLDEvent (fromSelf : Bool) (buffer : List Nat) : List MldAction :=
  if buffer.length = 0 then []
  else if ¬ (buffer.getD 0 0 = kICMPv6MLDv2Type ∧ 8 ≤ buffer.length) then []
  else if ¬ fromSelf then []
  else mldRecordLoop buffer 8 (256 * buffer.getD 6 0 + buffer.getD 7 0)

/-- The concrete multicast address ff03::abcd. -/
def mldAddr : List Nat :=
  [255, 3, 0, 0, 0, 0, 0, 0, 0, 0, 0, 0, 0, 0, 171, 205]

/-- A well-formed MLDv2 report from self with one record of
`record_type = 3` for ff03::abcd. -/
def mldReport3 : List Nat :=
  [143, 0, 0, 0, 0, 0, 0, 1] ++ [3, 0, 0, 0] ++ mldAddr

/-- Counterexample for C2: the type-143 report with one
`record_type = 3` record for ff03::abcd (spec scenario S4) causes an
unsubscribe (`otIp6UnsubscribeMulticastAddress`), not the subscribe the
claim states. -/
theorem processMLDEvent_type3_unsubscribes :
    processMLDEvent true mldReport3 = [MldAction.unsubscribe mldAddr] ∧
    MldAction.subscribe mldAddr ∉ processMLDEvent true mldReport3 := by
  decide

/-- One `MLDv2Record` (netif.cpp lines 228-235) together with its
`16 * mNumSources` trailing source-address octets: the packed wire layout
is `mRecordType` (1 octet), `mAuxDataLen` (1 octet), big-endian
`mNumSources` (2 octets), the 16-octet multicast address, then the
source addresses. -/
structure MLDv2RecordData where
  mRecordType : Nat
  mAuxDataLen : Nat
  mNumSources : Nat
  mMulticastAddress : List Nat
  mSources : List Nat

/-- The wire octets of one record, network byte order. -/
def MLDv2RecordData.bytes (r : MLDv2RecordData) : List Nat :=
  [r.mRecordType, r.mAuxDataLen, r.mNumSources / 256, r.mNumSources % 256] ++
    r.mMulticastAddress ++ r.mSources

/-- The wire octets of a sequence of records. -/
def mldBody : List MLDv2RecordData → List Nat
  | [] => []
  | r :: rs => r.bytes ++ mldBody rs

/-- A full MLDv2 report: the 8-octet header (type 143, reserved and
checksum octets zero, big-endian `mNumRecords`) followed by the
records. -/
def mldReportBytes (rs : List MLDv2RecordData) : List Nat :=
  [143, 0, 0, 0, 0, 0, rs.length / 256, rs.length % 256] ++ mldBody rs

/-- The per-record dispatch of `processMLDEvent` (netif.cpp lines
1241-1272): record type 4 (`kICMPv6MLDv2RecordChangeToIncludeType`)
subscribes the record's multicast address, type 3
(`kICMPv6MLDv2RecordChangeToExcludeType`) unsubscribes it, anything else
is ignored. -/
def mldRecordAction (rt : Nat) (addr : List Nat) : List MldAction :=
  if rt = kICMPv6MLDv2RecordChangeToIncludeType then [MldAction.subscribe addr]
  else if rt = kICMPv6MLDv2RecordChangeToExcludeType then
    [MldAction.unsubscribe addr]
  else []

/-- `getD` past a left append block. -/
theorem getD_append_add (pre l : List Nat) (i d : Nat) :
    (pre ++ l).getD (pre.length + i) d = l.getD i d := by
  induction pre with
  | nil => simp
  | cons x xs ih =>
    have h : (x :: xs).length + i = (xs.length + i) + 1 := by
      simp
      omega
    rw [List.cons_append, h, List.getD_cons_succ, ih]

/-- `drop` past a left append block. -/
theorem drop_append_add (pre l : List Nat) (i : Nat) :
    (pre ++ l).drop (pre.length + i) = l.drop i := by
  induction pre with
  | nil => simp
  | cons x xs ih =>
    have h : (x :: xs).length + i = (xs.length + i) + 1 := by
      simp
      omega
    rw [List.cons_append, h, List.drop_succ_cons, ih]

/-- One unfolding step of `mldRecordLoop` when the record fits: the
record at `offset` is dispatched and the loop continues at
`offset + 20 + 16 * mNumSources` with one unit of fuel spent. -/
theorem mldRecordLoop_step (buffer : List Nat) (offset n : Nat)
    (h1 : offset < buffer.length) (h2 : 20 + offset ≤ buffer.length) :
    mldRecordLoop buffer offset (n + 1) =
      mldRecordAction (buffer.getD offset 0)
        ((buffer.drop (offset + 4)).take 16) ++
      mldRecordLoop buffer
        (offset + 20 +
          16 * (256 * buffer.getD (offset + 2) 0 + buffer.getD (offset + 3) 0))
        n := by
  simp only [mldRecordLoop]
  rw [if_pos h1, if_pos h2]
  rfl

/-- The record loop over a buffer that is an arbitrary prefix followed by
the wire image of a record sequence, started at the prefix's end with one
unit of fuel per record, dispatches every record in order. -/
theorem mldRecordLoop_append (rs : List MLDv2RecordData) :
    ∀ (pre : List Nat) (offset : Nat), offset = pre.length →
      (∀ r ∈ rs, r.mMulticastAddress.length = 16 ∧
        r.mSources.length = 16 * r.mNumSources) →
      mldRecordLoop (pre ++ mldBody rs) offset rs.length =
        rs.foldr (fun r acc =>
          mldRecordAction r.mRecordType r.mMulticastAddress ++ acc) [] := by
  induction rs with
  | nil =>
    intro pre offset hoff hwf
    rfl
  | cons r rest ih =>
    intro pre offset hoff hwf
    subst hoff
    obtain ⟨ha, hs⟩ := hwf r (List.mem_cons_self r rest)
    have hblen : r.bytes.length = 20 + 16 * r.mNumSources := by
      unfold MLDv2RecordData.bytes
      simp [ha, hs]
      omega
    have hbody : mldBody (r :: rest) = r.bytes ++ mldBody rest := rfl
    rw [List.length_cons, hbody]
    have hlen1 : pre.length < (pre ++ (r.bytes ++ mldBody rest)).length := by
      rw [List.length_append, List.length_append]
      omega
    have hlen2 : 20 + pre.length ≤ (pre ++ (r.bytes ++ mldBody rest)).length := by
      rw [List.length_append, List.length_append]
      omega
    rw [mldRecordLoop_step _ _ _ hlen1 hlen2]
    have hrt : (pre ++ (r.bytes ++ mldBody rest)).getD pre.length 0 =
        r.mRecordType := by
      have h := getD_append_add pre (r.bytes ++ mldBody rest) 0 0
      rw [Nat.add_zero] at h
      rw [h]
      rfl
    have hhi : (r.bytes ++ mldBody rest).getD 2 0 = r.mNumSources / 256 := rfl
    have hlo : (r.bytes ++ mldBody rest).getD 3 0 = r.mNumSources % 256 := rfl
    have hdrop4 : (r.bytes ++ mldBody rest).drop 4 =
        (r.mMulticastAddress ++ r.mSources) ++ mldBody rest := rfl
    have htake : ((r.mMulticastAddress ++ r.mSources) ++ mldBody rest).take 16 =
        r.mMulticastAddress := by
      rw [List.append_assoc, ← ha, List.take_left]
    rw [hrt, getD_append_add pre _ 2 0, getD_append_add pre _ 3 0, hhi, hlo,
      drop_append_add pre _ 4, hdrop4, htake]
    have hadv : pre.length + 20 +
        16 * (256 * (r.mNumSources / 256) + r.mNumSources % 256) =
        (pre ++ r.bytes).length := by
      rw [Nat.div_add_mod, List.length_append, hblen]
      omega
    rw [hadv, ← List.append_assoc,
      ih (pre ++ r.bytes) (pre ++ r.bytes).length rfl
        (fun q hq => hwf q (List.mem_cons_of_mem r hq))]
    rfl

/-- C2 (amended): for every well-formed MLDv2 report (type 143, any
number of records, each record carrying its 16-octet multicast address
and `16 * mNumSources` source octets) received from one of the tunnel's
own addresses, each record with `record_type = 4` (the source's
`kICMPv6MLDv2RecordChangeToIncludeType`; on the wire, RFC 3810
CHANGE_TO_EXCLUDE, i.e. a join) invokes the stack's subscribe-multicast
with that record's address, each record with `record_type = 3` invokes
unsubscribe, and every other record type is ignored; the actions appear
in record order. -/
theorem processMLDEvent_dispatch (rs : List MLDv2RecordData)
    (hwf : ∀ r ∈ rs, r.mMulticastAddress.length = 16 ∧
      r.mSources.length = 16 * r.mNumSources) :
    processMLDEvent true (mldReportBytes rs) =
      rs.foldr (fun r acc =>
        mldRecordAction r.mRecordType r.mMulticastAddress ++ acc) [] := by
  unfold processMLDEvent mldReportBytes
  have hlen :
      ([143, 0, 0, 0, 0, 0, rs.length / 256, rs.length % 256] ++
        mldBody rs).length = 8 + (mldBody rs).length := by
    simp
    omega
  rw [if_neg (by rw [hlen]; omega)]
  have hcond :
      ([143, 0, 0, 0, 0, 0, rs.length / 256, rs.length % 256] ++
          mldBody rs).getD 0 0 = kICMPv6MLDv2Type ∧
        8 ≤ ([143, 0, 0, 0, 0, 0, rs.length / 256, rs.length % 256] ++
          mldBody rs).length := by
    constructor
    · rfl
    · rw [hlen]
      omega
  rw [if_neg (not_not_intro hcond), if_neg (by simp)]
  have hnum :
      256 * ([143, 0, 0, 0, 0, 0, rs.length / 256, rs.length % 256] ++
          mldBody rs).getD 6 0 +
        ([143, 0, 0, 0, 0, 0, rs.length / 256, rs.length % 256] ++
          mldBody rs).getD 7 0 = rs.length := by
    show 256 * (rs.length / 256) + rs.length % 256 = rs.length
    exact Nat.div_add_mod rs.length 256
  rw [hnum]
  exact mldRecordLoop_append rs
    [143, 0, 0, 0, 0, 0, rs.length / 256, rs.length % 256] 8 rfl hwf

/-- Witness for C2's amended theorem at a two-record report: a type-4
(join) record for ff03::abcd carrying one source address, followed by a
type-3 record for the same group, yields a subscribe then an
unsubscribe. -/
theorem processMLDEvent_dispatch_w :
    processMLDEvent true (mldReportBytes
      [⟨4, 0, 1, mldAddr, List.replicate 16 7⟩, ⟨3, 0, 0, mldAddr, []⟩]) =
      [MldAction.subscribe mldAddr, MldAction.unsubscribe mldAddr] := by
  rw [processMLDEvent_dispatch
    [⟨4, 0, 1, mldAddr, List.replicate 16 7⟩, ⟨3, 0, 0, mldAddr, []⟩]
    (by decide)]
  decide
